import Mathlib

/-!
Verification of the webminer wallet core (`wallet.cc`) against its
natural-language specification.  The development shallowly embeds the
wallet's data model and operations: bytes are `Nat` (masked where the
C++ code masks), machine words are `Nat` reduced modulo `2^32`/`2^64`
at the points where the source truncates, database tables are lists of
row structures, and fallible external effects (recovery-log writes,
SQL statement execution, the HTTP transport) are explicit oracle
parameters.
-/

set_option maxRecDepth 10000

namespace Webminer

/-! ### Bytes, words and hex encoding -/

/-- Truncation to a 32-bit word, as performed implicitly by `uint32_t`
arithmetic inside the SHA-256 primitive. -/
def w32 (n : Nat) : Nat := n % 4294967296

/-- 32-bit right rotation. -/
def rotr (n x : Nat) : Nat := w32 ((x >>> n) ||| (x <<< (32 - n)))

/-- Big-endian encoding of a 64-bit word into 8 bytes, each obtained
by shifting and masking with `0xff` exactly as in the source. -/
def beBytes8 (w : Nat) : List Nat :=
  [(w >>> 56) &&& 0xff, (w >>> 48) &&& 0xff, (w >>> 40) &&& 0xff,
   (w >>> 32) &&& 0xff, (w >>> 24) &&& 0xff, (w >>> 16) &&& 0xff,
   (w >>> 8) &&& 0xff, w &&& 0xff]

/-- Big-endian encoding of a 32-bit word into 4 bytes. -/
def beBytes4 (w : Nat) : List Nat :=
  [(w >>> 24) &&& 0xff, (w >>> 16) &&& 0xff, (w >>> 8) &&& 0xff, w &&& 0xff]

/-- One lowercase hexadecimal digit, `0`–`9` then `a`–`f`.  Matches the
alphabet used by `absl::BytesToHexString`. -/
def hexDigit (n : Nat) : Char :=
  match n % 16 with
  | 0 => '0' | 1 => '1' | 2 => '2' | 3 => '3'
  | 4 => '4' | 5 => '5' | 6 => '6' | 7 => '7'
  | 8 => '8' | 9 => '9' | 10 => 'a' | 11 => 'b'
  | 12 => 'c' | 13 => 'd' | 14 => 'e' | _ => 'f'

/-- Lowercase hex rendering of a byte string, two digits per byte,
most significant nibble first (`absl::BytesToHexString`). -/
def hexChars : List Nat → List Char
  | [] => []
  | b :: bs => hexDigit (b / 16) :: hexDigit b :: hexChars bs

/-- Lowercase hex rendering as a `String`. -/
def bytesToHexString (bs : List Nat) : String := String.mk (hexChars bs)

/-- The ASCII bytes of a string (all strings the wallet hashes are ASCII). -/
def strBytes (s : String) : List Nat := s.data.map Char.toNat

/-- A lowercase hexadecimal character, `0`–`9` or `a`–`f`. -/
def isLowerHexDigit (c : Char) : Bool :=
  ('0' ≤ c && c ≤ '9') || ('a' ≤ c && c ≤ 'f')

/-- The numeric value of one lowercase hex digit. -/
def hexCharVal (c : Char) : Nat := if c ≤ '9' then c.toNat - 48 else c.toNat - 87

/-- Decode a lowercase hex character string into bytes (the conversion
applied when a hex secret is rehashed into its public hash). -/
def hexToBytes : List Char → List Nat
  | a :: b :: rest => (16 * hexCharVal a + hexCharVal b) :: hexToBytes rest
  | _ => []

/-! ### SHA-256 (the external `CSHA256` primitive, modelled executably) -/

/-- The eight 32-bit words of SHA-256 working state. -/
structure Sha256State where
  a : Nat
  b : Nat
  c : Nat
  d : Nat
  e : Nat
  f : Nat
  g : Nat
  h : Nat

/-- SHA-256 initial hash value (the eight words of FIPS 180-4 §5.3.3,
written in decimal). -/
def sha256Init : Sha256State :=
  ⟨1779033703, 3144134277, 1013904242, 2773480762,
   1359893119, 2600822924, 528734635, 1541459225⟩

/-- SHA-256 round constants (the 64 words of FIPS 180-4 §4.2.2,
written in decimal). -/
def sha256K : List Nat :=
  [1116352408, 1899447441, 3049323471, 3921009573, 961987163, 1508970993,
   2453635748, 2870763221, 3624381080, 310598401, 607225278, 1426881987,
   1925078388, 2162078206, 2614888103, 3248222580, 3835390401, 4022224774,
   264347078, 604807628, 770255983, 1249150122, 1555081692, 1996064986,
   2554220882, 2821834349, 2952996808, 3210313671, 3336571891, 3584528711,
   113926993, 338241895, 666307205, 773529912, 1294757372, 1396182291,
   1695183700, 1986661051, 2177026350, 2456956037, 2730485921, 2820302411,
   3259730800, 3345764771, 3516065817, 3600352804, 4094571909, 275423344,
   430227734, 506948616, 659060556, 883997877, 958139571, 1322822218,
   1537002063, 1747873779, 1955562222, 2024104815, 2227730452, 2361852424,
   2428436474, 2756734187, 3204031479, 3329325298]

def shaCh (x y z : Nat) : Nat := (x &&& y) ^^^ ((x ^^^ 0xffffffff) &&& z)

def shaMaj (x y z : Nat) : Nat := (x &&& y) ^^^ (x &&& z) ^^^ (y &&& z)

def bigSigma0 (x : Nat) : Nat := rotr 2 x ^^^ rotr 13 x ^^^ rotr 22 x

def bigSigma1 (x : Nat) : Nat := rotr 6 x ^^^ rotr 11 x ^^^ rotr 25 x

def smallSigma0 (x : Nat) : Nat := rotr 7 x ^^^ rotr 18 x ^^^ (x >>> 3)

def smallSigma1 (x : Nat) : Nat := rotr 17 x ^^^ rotr 19 x ^^^ (x >>> 10)

/-- Extend a 16-word message block to the 64-word message schedule. -/
def sha256Schedule (block : List Nat) : List Nat :=
  (List.range 48).foldl
    (fun ws _ =>
      let n := ws.length
      ws ++ [w32 (smallSigma1 (ws.getD (n - 2) 0) + ws.getD (n - 7) 0 +
                  smallSigma0 (ws.getD (n - 15) 0) + ws.getD (n - 16) 0)])
    block

/-- One SHA-256 round. -/
def sha256Round (st : Sha256State) (kw : Nat × Nat) : Sha256State :=
  let t1 := w32 (st.h + bigSigma1 st.e + shaCh st.e st.f st.g + kw.1 + kw.2)
  let t2 := w32 (bigSigma0 st.a + shaMaj st.a st.b st.c)
  ⟨w32 (t1 + t2), st.a, st.b, st.c, w32 (st.d + t1), st.e, st.f, st.g⟩

/-- Compress one 16-word block into the running state. -/
def sha256Compress (st : Sha256State) (block : List Nat) : Sha256State :=
  let ws := sha256Schedule block
  let fin := (sha256K.zip ws).foldl sha256Round st
  ⟨w32 (st.a + fin.a), w32 (st.b + fin.b), w32 (st.c + fin.c), w32 (st.d + fin.d),
   w32 (st.e + fin.e), w32 (st.f + fin.f), w32 (st.g + fin.g), w32 (st.h + fin.h)⟩

/-- SHA-256 message padding: append `0x80`, zero bytes, then the
64-bit big-endian bit length. -/
def sha256Pad (msg : List Nat) : List Nat :=
  msg ++ 0x80 :: List.replicate ((119 - msg.length % 64) % 64) 0 ++ beBytes8 (8 * msg.length)

/-- Group 4 bytes at a time into big-endian 32-bit words. -/
def bytesToWords : List Nat → List Nat
  | a :: b :: c :: d :: rest => (a <<< 24 ||| b <<< 16 ||| c <<< 8 ||| d) :: bytesToWords rest
  | _ => []

/-- Split a byte string into 64-byte blocks of 16 words (fuelled recursion;
the fuel is the length of the list, which strictly decreases). -/
def toBlocksAux : Nat → List Nat → List (List Nat)
  | 0, _ => []
  | _, [] => []
  | fuel + 1, bs => bytesToWords (bs.take 64) :: toBlocksAux fuel (bs.drop 64)

/-- The SHA-256 digest of a byte string, as 32 bytes. -/
def sha256 (msg : List Nat) : List Nat :=
  let padded := sha256Pad msg
  let fin := (toBlocksAux padded.length padded).foldl sha256Compress sha256Init
  beBytes4 fin.a ++ beBytes4 fin.b ++ beBytes4 fin.c ++ beBytes4 fin.d ++
  beBytes4 fin.e ++ beBytes4 fin.f ++ beBytes4 fin.g ++ beBytes4 fin.h

/-- `SHA256` of a lowercase-hex secret's raw bytes: the hash stored in
a `PublicWebcash` (`pk`) for that secret. -/
def publicHash (sk : String) : List Nat := sha256 (hexToBytes sk.data)

/-! ### HD key derivation (`Wallet::ReserveSecret`, derivation part) -/

/-- The category bits OR-ed into the bottom of the encoded chaincode
word, from the four-way `if` ladder in `ReserveSecret`. -/
def categoryBits (mine sweep : Bool) : Nat :=
  if !mine && sweep then 0
  else if !mine && !sweep then 1
  else if mine && !sweep then 2
  else 3

/-- The 8 chaincode bytes exactly as the source computes them: seven
bytes obtained by shifts of 54, 46, …, 6 bits masked with `0xff`, and a
final byte `(chaincode << 2) & 0xfc`. -/
def chaincodeBytesCode (chaincode : Nat) : List Nat :=
  [(chaincode >>> 54) &&& 0xff, (chaincode >>> 46) &&& 0xff,
   (chaincode >>> 38) &&& 0xff, (chaincode >>> 30) &&& 0xff,
   (chaincode >>> 22) &&& 0xff, (chaincode >>> 14) &&& 0xff,
   (chaincode >>> 6) &&& 0xff, (chaincode <<< 2) &&& 0xfc]

/-- `chaincode_bytes.back() |= bits` on the list representation. -/
def orIntoLast : List Nat → Nat → List Nat
  | [], _ => []
  | [b], v => [b ||| v]
  | b :: rest, v => b :: orIntoLast rest v

/-- `tag = SHA256("webcashwalletv1")`. -/
def tagBytes : List Nat := sha256 (strBytes "webcashwalletv1")

/-- The 8 depth bytes exactly as the source computes them (big-endian
byte extraction by shifting and masking with `0xff`). -/
def depthBytesCode (depth : Nat) : List Nat :=
  [(depth >>> 56) &&& 0xff, (depth >>> 48) &&& 0xff, (depth >>> 40) &&& 0xff,
   (depth >>> 32) &&& 0xff, (depth >>> 24) &&& 0xff, (depth >>> 16) &&& 0xff,
   (depth >>> 8) &&& 0xff, depth &&& 0xff]

/-- The derivation performed by `Wallet::ReserveSecret` for the wallet's
`hdroot`, category `(mine, sweep)` and the given depth.  `chaincode` is
the constant `0` of the source.  Returns the lowercase hex presentation
of the derived 32-byte secret. -/
def reserveDerive (hdroot : List Nat) (mine sweep : Bool) (depth : Nat) : String :=
  let chaincode : Nat := 0
  let chaincodeBytes := orIntoLast (chaincodeBytesCode chaincode) (categoryBits mine sweep)
  let depthBytes := depthBytesCode depth
  bytesToHexString (sha256 (tagBytes ++ tagBytes ++ hdroot ++ chaincodeBytes ++ depthBytes))

/-! ### The wallet data model

Database tables are lists of row structures; `nextXId` fields model
sqlite's monotone rowid allocation and `lastInsertRowid` models the
connection-global `sqlite3_last_insert_rowid`. -/

/-- A row of the `secret` table. -/
structure SecretRow where
  id : Int
  timestamp : Int
  secret : String
  mine : Bool
  sweep : Bool
deriving DecidableEq, Repr

/-- A row of the `hdroot` table. -/
structure HDRootRow where
  id : Int
  timestamp : Int
  version : Int
  secret : List Nat
deriving DecidableEq, Repr

/-- A row of the `hdchain` table. -/
structure HDChainRow where
  id : Int
  hdroot_id : Int
  chaincode : Nat
  mine : Bool
  sweep : Bool
  mindepth : Nat
  maxdepth : Nat
deriving DecidableEq, Repr

/-- A row of the `hdkey` table. -/
structure HDKeyRow where
  id : Int
  hdchain_id : Int
  depth : Nat
  secret_id : Int
deriving DecidableEq, Repr

/-- A row of the `output` table. -/
structure OutputRow where
  id : Int
  timestamp : Int
  hash : List Nat
  secret_id : Option Int
  amount : Int
  spent : Bool
deriving DecidableEq, Repr

/-- The wallet database (the tables the verified operations touch),
plus sqlite's rowid allocation state. -/
structure WalletDB where
  hdroots : List HDRootRow
  hdchains : List HDChainRow
  secrets : List SecretRow
  hdkeys : List HDKeyRow
  outputs : List OutputRow
  nextHdrootId : Int
  nextHdchainId : Int
  nextSecretId : Int
  nextHdkeyId : Int
  nextOutputId : Int
  lastInsertRowid : Int
deriving DecidableEq, Repr

/-- The in-memory `WalletSecret` value. -/
structure WalletSecret where
  id : Int
  timestamp : Int
  secret : String
  mine : Bool
  sweep : Bool
deriving DecidableEq, Repr

/-- The in-memory `WalletOutput` value. -/
structure WalletOutput where
  id : Int
  timestamp : Int
  hash : List Nat
  secret : Option WalletSecret
  amount : Int
  spent : Bool
deriving DecidableEq, Repr

/-- `to_string(get_hash_type(mine, sweep))`: the recovery-log category
name (including the historical "recieve" spelling). -/
def categoryName (mine sweep : Bool) : String :=
  if !mine && !sweep then "pay"
  else if !mine && sweep then "recieve"
  else if mine && !sweep then "change"
  else "mining"

/-- `to_string(SecretWebcash)`: `e<amount>:secret:<hex>`. -/
def secretWebcashString (amount : Int) (sk : String) : String :=
  "e" ++ toString amount ++ ":secret:" ++ sk

/-- The secret-insertion transaction shared by `AddSecretToWallet` and
`ReserveSecret`: `INSERT OR IGNORE` of the row, then
`UPDATE secret SET mine = mine & :mine` and
`UPDATE secret SET sweep = sweep | :sweep` for the colliding secret. -/
def upsertSecret (ts : Int) (sk : String) (mine sweep : Bool) (db : WalletDB) : WalletDB :=
  let db1 :=
    if db.secrets.any (fun r => r.secret == sk) then db
    else { db with
           secrets := db.secrets ++ [⟨db.nextSecretId, ts, sk, mine, sweep⟩],
           nextSecretId := db.nextSecretId + 1,
           lastInsertRowid := db.nextSecretId }
  { db1 with secrets := db1.secrets.map (fun r =>
      if r.secret == sk then { r with mine := r.mine && mine, sweep := r.sweep || sweep } else r) }

/-- `SELECT id FROM secret WHERE secret = :secret` (0 if absent). -/
def findSecretId (db : WalletDB) (sk : String) : Int :=
  match db.secrets.find? (fun r => r.secret == sk) with
  | some r => r.id
  | none => 0

/-- Result of `Wallet::AddSecretToWallet`: the returned row id, the
database and the recovery log after the call. -/
structure AddSecretResult where
  ret : Int
  db : WalletDB
  log : List String
deriving DecidableEq, Repr

/-- `Wallet::AddSecretToWallet`.  `logOk` is the oracle for the
recovery-log write, `dbOk` for the SQL transaction.  The log line is
written (and flushed) first; a log failure clears `result` but does not
abort, so the database insert is still attempted; the function returns
`sqlite3_last_insert_rowid` if both steps succeeded and `0` otherwise. -/
def addSecretToWallet (logOk dbOk : Bool) (ts amount : Int) (sk : String)
    (mine sweep : Bool) (db : WalletDB) (log : List String) : AddSecretResult :=
  let result := logOk
  let log' :=
    if logOk then
      log ++ [toString ts ++ " " ++ categoryName mine sweep ++ " " ++ secretWebcashString amount sk]
    else log
  if dbOk then
    let db' := upsertSecret ts sk mine sweep db
    ⟨if result then db'.lastInsertRowid else 0, db', log'⟩
  else
    ⟨0, db, log'⟩

/-- An empty, freshly created wallet database (rowids start at 1). -/
def emptyDB : WalletDB := ⟨[], [], [], [], [], 1, 1, 1, 1, 1, 0⟩

/-- A sequence of secret upserts, as performed by repeated calls to
`AddSecretToWallet` and/or `ReserveSecret`. -/
def applyUpserts (db : WalletDB) (ops : List (Int × String × Bool × Bool)) : WalletDB :=
  ops.foldl (fun d op => upsertSecret op.1 op.2.1 op.2.2.1 op.2.2.2 d) db

/-! ### `Wallet::ReserveSecret` (database part) -/

/-- The chain-selection query of `ReserveSecret`:
`SELECT id,maxdepth FROM hdchain WHERE hdroot_id=… AND chaincode=… AND
mine=… AND sweep=… LIMIT 1`. -/
def findChain (db : WalletDB) (hdroot_id : Int) (chaincode : Nat) (mine sweep : Bool) :
    Option HDChainRow :=
  db.hdchains.find? (fun c => c.hdroot_id == hdroot_id && c.chaincode == chaincode &&
    c.mine == mine && c.sweep == sweep)

/-- `INSERT OR IGNORE INTO hdkey`: skipped when either uniqueness
constraint (`(hdchain_id, depth)` or `secret_id`) collides. -/
def insertHdkey (hdchain_id : Int) (depth : Nat) (secret_id : Int) (db : WalletDB) : WalletDB :=
  if db.hdkeys.any (fun k => (k.hdchain_id == hdchain_id && k.depth == depth) ||
      k.secret_id == secret_id) then db
  else { db with
         hdkeys := db.hdkeys ++ [⟨db.nextHdkeyId, hdchain_id, depth, secret_id⟩],
         nextHdkeyId := db.nextHdkeyId + 1,
         lastInsertRowid := db.nextHdkeyId }

/-- `UPDATE hdchain SET maxdepth = maxdepth + 1 WHERE id = :hdchain_id`. -/
def bumpMaxdepth (hdchain_id : Int) (db : WalletDB) : WalletDB :=
  { db with hdchains := db.hdchains.map (fun c =>
      if c.id == hdchain_id then { c with maxdepth := c.maxdepth + 1 } else c) }

/-- `Wallet::ReserveSecret`: select the `(chaincode=0, mine, sweep)`
chain, derive at its current `maxdepth`, then in one transaction upsert
the secret, link it with an `hdkey` row, and increment `maxdepth`.
`none` models the exception thrown when the chain row is missing.
The local `secret_id` is initialised to `-1` and never reassigned
before being copied into the returned `WalletSecret`. -/
def reserveSecret (hdroot : List Nat) (hdroot_id ts : Int) (mine sweep : Bool)
    (db : WalletDB) : Option (WalletSecret × WalletDB) :=
  match findChain db hdroot_id 0 mine sweep with
  | none => none
  | some chain =>
    let depth := chain.maxdepth
    let sk := reserveDerive hdroot mine sweep depth
    let secret_id : Int := -1
    let db1 := upsertSecret ts sk mine sweep db
    let db2 := insertHdkey chain.id depth (findSecretId db1 sk) db1
    let db3 := bumpMaxdepth chain.id db2
    some (⟨secret_id, ts, sk, mine, sweep⟩, db3)

/-! ### `Wallet::GetOrCreateHDRoot` (fresh-wallet branch) -/

/-- Externally visible effects, in program order: recovery-log appends
and database commits. -/
inductive WalletEvent where
  | logAppend (line : String)
  | dbCommit
deriving DecidableEq, Repr

/-- The recovery-log line written for a fresh HD root:
`<timestamp> hdroot <hex> version=1`. -/
def hdrootLogLine (ts : Int) (randBytes : List Nat) : String :=
  toString ts ++ " hdroot " ++ bytesToHexString randBytes ++ " version=1"

/-- The four initial chain rows inserted with a fresh root, in the
order of the `INSERT` statement's `VALUES` list: `(mine, sweep)` over
`(F,F), (F,T), (T,F), (T,T)`, all at `chaincode = 0` with
`mindepth = maxdepth = 0`. -/
def initialChains (hdroot_id nextId : Int) : List HDChainRow :=
  [⟨nextId, hdroot_id, 0, false, false, 0, 0⟩,
   ⟨nextId + 1, hdroot_id, 0, false, true, 0, 0⟩,
   ⟨nextId + 2, hdroot_id, 0, true, false, 0, 0⟩,
   ⟨nextId + 3, hdroot_id, 0, true, true, 0, 0⟩]

/-- The `count == 0` branch of `Wallet::GetOrCreateHDRoot`: 32 random
bytes (`randBytes`, supplied by the external randomness source) are
logged to the recovery file first, then one `hdroot` row and the four
initial `hdchain` rows are inserted in a single transaction.  Returns
the new database, the new log, and the effects in program order. -/
def getOrCreateHDRootCreate (ts : Int) (randBytes : List Nat) (db : WalletDB)
    (log : List String) : WalletDB × List String × List WalletEvent :=
  let line := hdrootLogLine ts randBytes
  let log' := log ++ [line]
  let db' := { db with
               hdroots := db.hdroots ++ [⟨db.nextHdrootId, ts, 1, randBytes⟩],
               hdchains := db.hdchains ++ initialChains db.nextHdrootId db.nextHdchainId,
               nextHdrootId := db.nextHdrootId + 1,
               nextHdchainId := db.nextHdchainId + 4,
               lastInsertRowid := db.nextHdchainId + 3 }
  (db', log', [.logAppend line, .dbCommit])

/-! ### `Wallet::ReplaceWebcash` -/

/-- The input-validation loop of `ReplaceWebcash`.  `none` models
`return {}` (an input without a secret, or an already-spent input).
Otherwise returns the summed input amount and whether the
"Invalid amount for replacement intput" diagnostic was printed —
note the source prints that diagnostic but does NOT return. -/
def checkInputs : List WalletOutput → Option (Int × Bool)
  | [] => some (0, false)
  | w :: ws =>
    match w.secret with
    | none => none
    | some _ =>
      if w.spent then none
      else
        match checkInputs ws with
        | none => none
        | some (t, d) => some (w.amount + t, d || decide (w.amount < 1))

/-- The output-validation loop of `ReplaceWebcash`: `none` models
`return {}` on an output amount below 1; otherwise the summed amount. -/
def checkOutputs : List (WalletSecret × Int) → Option Int
  | [] => some 0
  | (_, a) :: ws =>
    if a < 1 then none
    else
      match checkOutputs ws with
      | none => none
      | some t => some (a + t)

/-- `Wallet::AddOutputToWallet`: insert one `output` row; the `ok`
oracle models the SQL statement outcome (`0` return on failure).
A zero `secret_id` binds SQL `NULL`. -/
def addOutputToWallet (ok : Bool) (ts : Int) (hash : List Nat) (secret_id amount : Int)
    (spent : Bool) (db : WalletDB) : Int × WalletDB :=
  if ok then
    (db.nextOutputId,
     { db with
       outputs := db.outputs ++ [⟨db.nextOutputId, ts, hash,
         if secret_id == 0 then none else some secret_id, amount, spent⟩],
       nextOutputId := db.nextOutputId + 1,
       lastInsertRowid := db.nextOutputId })
  else (0, db)

/-- `UPDATE output SET spent=TRUE WHERE id=:output_id`. -/
def markSpent (outs : List OutputRow) (i : Int) : List OutputRow :=
  outs.map (fun r => if r.id == i then { r with spent := true } else r)

/-- The input half of the `ReplaceWebcash` commit phase: for each input
run the spent-update; a failed statement (oracle `updateOk`) is logged
and processing continues with the next input. -/
def commitInputs (updateOk : Int → Bool) : WalletDB → List WalletOutput → WalletDB
  | db, [] => db
  | db, w :: ws =>
    commitInputs updateOk
      (if updateOk w.id then { db with outputs := markSpent db.outputs w.id } else db) ws

/-- The output half of the `ReplaceWebcash` commit phase: insert each
output row (the `k`-th insert succeeds when `insertOk k`); failures are
logged and skipped; successes are paired with their new row id. -/
def commitOutputs (insertOk : Nat → Bool) (ts : Int) :
    Nat → WalletDB → List (WalletSecret × Int) → List (WalletSecret × Int) × WalletDB
  | _, db, [] => ([], db)
  | k, db, (s, a) :: rest =>
    let r := addOutputToWallet (insertOk k) ts (publicHash s.secret) s.id a false db
    let rest' := commitOutputs insertOk ts (k + 1) r.2 rest
    if r.1 == 0 then rest' else ((s, r.1) :: rest'.1, rest'.2)

/-- Outcome of a `ReplaceWebcash` call: the returned list, the
caller-visible (possibly mutated) input objects, the database, whether
an HTTP request was sent, and whether a diagnostic was printed during
validation or transport handling. -/
structure ReplaceOutcome where
  ret : List (WalletSecret × Int)
  inputs : List WalletOutput
  db : WalletDB
  httpSent : Bool
  diag : Bool
deriving DecidableEq, Repr

/-- `Wallet::ReplaceWebcash`.  `resp` is the transport's answer
(`none` = connection error or timeout, otherwise status and body);
`updateOk`/`insertOk` are the SQL oracles of the commit phase. -/
def replaceWebcash (resp : Option (Nat × String)) (updateOk : Int → Bool)
    (insertOk : Nat → Bool) (ts : Int) (inputs : List WalletOutput)
    (outputs : List (WalletSecret × Int)) (db : WalletDB) : ReplaceOutcome :=
  if inputs.isEmpty then ⟨[], inputs, db, false, true⟩
  else
    match checkInputs inputs with
    | none => ⟨[], inputs, db, false, true⟩
    | some (totalIn, diagIn) =>
      if outputs.isEmpty then ⟨[], inputs, db, false, true⟩
      else
        match checkOutputs outputs with
        | none => ⟨[], inputs, db, false, true⟩
        | some totalOut =>
          if totalIn ≠ totalOut then ⟨[], inputs, db, false, true⟩
          else
            match resp with
            | none => ⟨[], inputs, db, true, true⟩
            | some (status, _) =>
              if status ≠ 200 then ⟨[], inputs, db, true, true⟩
              else
                let inputs' := inputs.map (fun w => { w with spent := true })
                let db1 := commitInputs updateOk db inputs'
                let res := commitOutputs insertOk ts 0 db1 outputs
                ⟨res.1, inputs', res.2, true, diagIn⟩

/-- Closed form of the rows inserted by the commit phase's output half. -/
def insertedRows (insertOk : Nat → Bool) (ts : Int) :
    Nat → Int → List (WalletSecret × Int) → List OutputRow
  | _, _, [] => []
  | k, nid, (s, a) :: rest =>
    if insertOk k then
      ⟨nid, ts, publicHash s.secret, if s.id == 0 then none else some s.id, a, false⟩
        :: insertedRows insertOk ts (k + 1) (nid + 1) rest
    else insertedRows insertOk ts (k + 1) nid rest

/-- Closed form of the returned (secret, row id) pairs of the commit
phase's output half. -/
def retPairs (insertOk : Nat → Bool) :
    Nat → Int → List (WalletSecret × Int) → List (WalletSecret × Int)
  | _, _, [] => []
  | k, nid, (s, _) :: rest =>
    if insertOk k then (s, nid) :: retPairs insertOk (k + 1) (nid + 1) rest
    else retPairs insertOk (k + 1) nid rest

/-! ### Concrete scenario data -/

/-- An all-zero 32-byte HD root, the spec's deterministic test vector. -/
def zero32 : List Nat := List.replicate 32 0

/-- A freshly bootstrapped wallet database: one root (id 1) and the
four initial chains (ids 1–4), nothing else. -/
def scenarioDB : WalletDB :=
  { emptyDB with
    hdroots := [⟨1, 0, 1, zero32⟩],
    hdchains := initialChains 1 1,
    nextHdrootId := 2,
    nextHdchainId := 5 }

/-- First `ReserveSecret` call of the reserve-then-advance scenario:
chain `(mine=F, sweep=T)` of a freshly bootstrapped wallet. -/
def scenarioRun1 : Option (WalletSecret × WalletDB) :=
  reserveSecret zero32 1 10 false true scenarioDB

/-- Second `ReserveSecret` call, on the database left by the first. -/
def scenarioRun2 : Option (WalletSecret × WalletDB) :=
  match scenarioRun1 with
  | none => none
  | some (_, db1) => reserveSecret zero32 1 11 false true db1

/-- The secret returned by the first scenario call. -/
def scenarioSecret1 : String := (scenarioRun1.map (fun p => p.1.secret)).getD ""

/-- The secret returned by the second scenario call. -/
def scenarioSecret2 : String := (scenarioRun2.map (fun p => p.1.secret)).getD ""

/-- The database after both scenario calls. -/
def scenarioFinalDB : WalletDB := (scenarioRun2.map (fun p => p.2)).getD emptyDB

/-- A known input secret for the Replace scenarios (row id 3). -/
def wsA : WalletSecret := ⟨3, 0, "aa", false, true⟩

/-- A reserved output secret for the Replace scenarios (`id = -1`, as
returned by `ReserveSecret`). -/
def wsB : WalletSecret := ⟨-1, 0, "bb", true, true⟩

/-- A second known input secret for the Replace scenarios. -/
def wsC : WalletSecret := ⟨4, 0, "cc", false, true⟩

/-- A single well-formed Replace input worth 1. -/
def sampleInputs : List WalletOutput := [⟨1, 0, publicHash "aa", some wsA, 1, false⟩]

/-- A single Replace output worth 1. -/
def sampleOutputs : List (WalletSecret × Int) := [(wsB, 1)]

/-- A wallet database holding the output row backing `sampleInputs`. -/
def sampleDB : WalletDB :=
  { emptyDB with
    outputs := [⟨1, 0, publicHash "aa", some 3, 1, false⟩],
    nextOutputId := 2 }

/-- A Replace input set whose first element has amount 0 (below the
minimum of 1) while the sums still balance against `sampleOutputs`. -/
def badInputs : List WalletOutput :=
  [⟨1, 0, publicHash "aa", some wsA, 0, false⟩,
   ⟨2, 0, publicHash "cc", some wsC, 1, false⟩]

/-! ## Theorems -/

example : bytesToHexString (sha256 (strBytes "abc")) =
    "ba7816bf8f01cfea414140de5dae2223b00361a396177a9cb410ff61f20015ad" := by decide

example : bytesToHexString (sha256 []) =
    "e3b0c44298fc1c149afbf4c8996fb92427ae41e4649b934ca495991b7852b855" := by decide

theorem hexDigit_lower (n : Nat) : isLowerHexDigit (hexDigit n) = true := by
  unfold hexDigit
  split <;> decide

theorem hexChars_length (bs : List Nat) : (hexChars bs).length = 2 * bs.length := by
  induction bs with
  | nil => rfl
  | cons b bs ih => simp [hexChars, ih]; omega

theorem hexChars_lower (bs : List Nat) : ∀ c ∈ hexChars bs, isLowerHexDigit c = true := by
  induction bs with
  | nil => intro c hc; cases hc
  | cons b bs ih =>
    intro c hc
    rcases hc with _ | ⟨_, hc⟩
    · exact hexDigit_lower _
    · rcases hc with _ | ⟨_, hc⟩
      · exact hexDigit_lower _
      · exact ih c hc

theorem sha256_length (msg : List Nat) : (sha256 msg).length = 32 := by
  simp [sha256, beBytes4]

/-- C1: for every `(mine, sweep)` pair and every depth, the secret
derived by `ReserveSecret` equals
`SHA256(tag ‖ tag ‖ hdroot ‖ chaincode_bytes ‖ depth_bytes)` where
`tag = SHA256("webcashwalletv1")`, `chaincode_bytes` is the 8-byte
big-endian encoding of the chaincode (the constant `0` in
`ReserveSecret`) left-shifted by 2 with the category bits
(`(F,T)↦0, (F,F)↦1, (T,F)↦2, (T,T)↦3`) OR-ed into the bottom 2 bits of
the last byte, and `depth_bytes` is the 8-byte big-endian encoding of
the depth; the result is presented as 64 lowercase hex characters. -/
theorem C1_reserveDerive_spec (hdroot : List Nat) (mine sweep : Bool) (depth : Nat) :
    reserveDerive hdroot mine sweep depth =
      bytesToHexString (sha256 (tagBytes ++ tagBytes ++ hdroot ++
        beBytes8 ((0 <<< 2) ||| categoryBits mine sweep) ++ beBytes8 depth)) ∧
    tagBytes = sha256 (strBytes "webcashwalletv1") ∧
    (reserveDerive hdroot mine sweep depth).length = 64 ∧
    ∀ c ∈ (reserveDerive hdroot mine sweep depth).data, isLowerHexDigit c = true := by
  have henc : orIntoLast (chaincodeBytesCode 0) (categoryBits mine sweep) =
      beBytes8 ((0 <<< 2) ||| categoryBits mine sweep) := by
    cases mine <;> cases sweep <;> decide
  have hdepth : depthBytesCode depth = beBytes8 depth := rfl
  refine ⟨?_, rfl, ?_, ?_⟩
  · show bytesToHexString (sha256 (tagBytes ++ tagBytes ++ hdroot ++
        orIntoLast (chaincodeBytesCode 0) (categoryBits mine sweep) ++ depthBytesCode depth)) = _
    rw [henc, hdepth]
  · show (bytesToHexString _).length = 64
    unfold bytesToHexString
    show (hexChars _).length = 64
    rw [hexChars_length, sha256_length]
  · intro c hc
    exact hexChars_lower _ c hc

theorem upsertSecret_fresh (ts : Int) (sk : String) (mine sweep : Bool) (db : WalletDB)
    (h : db.secrets.any (fun r => r.secret == sk) = false) :
    upsertSecret ts sk mine sweep db =
      { db with
        secrets := db.secrets ++ [⟨db.nextSecretId, ts, sk, mine, sweep⟩],
        nextSecretId := db.nextSecretId + 1,
        lastInsertRowid := db.nextSecretId } := by
  have hall : ∀ r ∈ db.secrets, (r.secret == sk) = false := by
    simpa [List.any_eq_false] using h
  unfold upsertSecret
  simp only [h, Bool.false_eq_true, if_false]
  congr 1
  rw [List.map_append]
  have h1 : db.secrets.map (fun r =>
      if r.secret == sk then { r with mine := r.mine && mine, sweep := r.sweep || sweep } else r) =
        db.secrets := by
    have h2 := List.map_congr_left (l := db.secrets)
      (f := fun r => if r.secret == sk then
          { r with mine := r.mine && mine, sweep := r.sweep || sweep } else r)
      (g := id)
      (fun r hr => by
        simp only [hall r hr, Bool.false_eq_true, if_false, id])
    simpa using h2
  rw [h1]
  simp

theorem upsertSecret_existing (ts : Int) (sk : String) (mine sweep : Bool) (db : WalletDB)
    (h : db.secrets.any (fun r => r.secret == sk) = true) :
    upsertSecret ts sk mine sweep db =
      { db with secrets := db.secrets.map (fun r =>
          if r.secret == sk then { r with mine := r.mine && mine, sweep := r.sweep || sweep }
          else r) } := by
  unfold upsertSecret
  simp only [h, if_true]

/-- Every row of the `secret` table survives `upsertSecret` with the
same id, timestamp and secret text, with flags merged when the secret
collides and untouched otherwise. -/
theorem upsertSecret_row_step (ts : Int) (sk : String) (mine sweep : Bool) (db : WalletDB)
    (r : SecretRow) (hr : r ∈ db.secrets) :
    ∃ r' ∈ (upsertSecret ts sk mine sweep db).secrets,
      r'.id = r.id ∧ r'.timestamp = r.timestamp ∧ r'.secret = r.secret ∧
      ((r.secret == sk) = true → r'.mine = (r.mine && mine) ∧ r'.sweep = (r.sweep || sweep)) ∧
      ((r.secret == sk) = false → r' = r) := by
  unfold upsertSecret
  by_cases hany : db.secrets.any (fun r => r.secret == sk) = true
  · simp only [hany, if_true]
    refine ⟨if r.secret == sk then { r with mine := r.mine && mine, sweep := r.sweep || sweep }
        else r, List.mem_map_of_mem _ hr, ?_⟩
    by_cases hcol : (r.secret == sk) = true
    · simp [hcol]
    · simp [hcol]
  · simp only [Bool.not_eq_true] at hany
    simp only [hany, Bool.false_eq_true, if_false]
    have hrmem : r ∈ db.secrets ++ [(⟨db.nextSecretId, ts, sk, mine, sweep⟩ : SecretRow)] :=
      List.mem_append_left _ hr
    refine ⟨if r.secret == sk then { r with mine := r.mine && mine, sweep := r.sweep || sweep }
        else r, List.mem_map_of_mem _ hrmem, ?_⟩
    by_cases hcol : (r.secret == sk) = true
    · simp [hcol]
    · simp [hcol]

theorem applyUpserts_mono (ops : List (Int × String × Bool × Bool)) (db : WalletDB)
    (r : SecretRow) (hr : r ∈ db.secrets) :
    ∃ r' ∈ (applyUpserts db ops).secrets,
      r'.id = r.id ∧ r'.secret = r.secret ∧
      (r'.mine = true → r.mine = true) ∧ (r.sweep = true → r'.sweep = true) := by
  induction ops generalizing db r with
  | nil => exact ⟨r, hr, rfl, rfl, fun h => h, fun h => h⟩
  | cons op ops ih =>
    obtain ⟨r1, hr1, hid1, hts1, hsk1, hcol1, hnoc1⟩ :=
      upsertSecret_row_step op.1 op.2.1 op.2.2.1 op.2.2.2 db r hr
    obtain ⟨r2, hr2, hid2, hsk2, hmine2, hsweep2⟩ :=
      ih (upsertSecret op.1 op.2.1 op.2.2.1 op.2.2.2 db) r1 hr1
    refine ⟨r2, hr2, hid2.trans hid1, hsk2.trans hsk1, ?_, ?_⟩
    · intro h2
      have h1 := hmine2 h2
      by_cases hcol : (r.secret == op.2.1) = true
      · have := (hcol1 hcol).1
        rw [this] at h1
        exact (Bool.and_eq_true _ _).mp h1 |>.1
      · rw [(hnoc1 (by simpa using hcol))] at h1
        exact h1
    · intro h0
      apply hsweep2
      by_cases hcol : (r.secret == op.2.1) = true
      · rw [(hcol1 hcol).2, h0, Bool.true_or]
      · rw [(hnoc1 (by simpa using hcol))]
        exact h0

/-- C5 counterexample.  First conjunct pair: with a failing
recovery-log write but a working database, `AddSecretToWallet` returns
`0` even though the insert succeeded (the database did change),
contradicting "returns zero only on database failure".  Remaining
conjuncts: the function returns `sqlite3_last_insert_rowid`, so after
an intervening `AddOutputToWallet` (new row id 2) a second call with
the same secret string returns 2 instead of the secret's row id 1. -/
theorem C5_counterexample :
    (addSecretToWallet false true 0 1 "aa" true true emptyDB []).ret = 0 ∧
    (addSecretToWallet false true 0 1 "aa" true true emptyDB []).db ≠ emptyDB ∧
    (addSecretToWallet true true 0 1 "aa" true true sampleDB []).ret = 1 ∧
    (addSecretToWallet true true 9 1 "aa" true true
        (addOutputToWallet true 5 (publicHash "cc") 0 7 false
          (addSecretToWallet true true 0 1 "aa" true true sampleDB []).db).2
        []).ret = 2 ∧
    (∀ r ∈ (addSecretToWallet true true 9 1 "aa" true true
        (addOutputToWallet true 5 (publicHash "cc") 0 7 false
          (addSecretToWallet true true 0 1 "aa" true true sampleDB []).db).2
        []).db.secrets, r.secret = "aa" → r.id = 1) := by
  decide

/-- C5 (amended): `AddSecretToWallet` still attempts the database
insert after a recovery-log write failure, but then returns zero; it
returns a nonzero row id only when both the log write and the database
transaction succeed, in which case for a fresh secret it returns the
id of the freshly inserted row, and an immediately following call with
the same secret string returns that same row id. -/
theorem C5_addSecret_amended (ts ts2 amount amount2 : Int) (sk : String)
    (mine sweep mine2 sweep2 : Bool) (db : WalletDB) (log : List String)
    (hfresh : db.secrets.any (fun r => r.secret == sk) = false) :
    (addSecretToWallet false true ts amount sk mine sweep db log).db =
      upsertSecret ts sk mine sweep db ∧
    (addSecretToWallet false true ts amount sk mine sweep db log).ret = 0 ∧
    (addSecretToWallet true false ts amount sk mine sweep db log).ret = 0 ∧
    (addSecretToWallet true false ts amount sk mine sweep db log).db = db ∧
    (addSecretToWallet true true ts amount sk mine sweep db log).ret = db.nextSecretId ∧
    (∃ r ∈ (addSecretToWallet true true ts amount sk mine sweep db log).db.secrets,
        r.id = db.nextSecretId ∧ r.secret = sk) ∧
    (addSecretToWallet true true ts2 amount2 sk mine2 sweep2
        (addSecretToWallet true true ts amount sk mine sweep db log).db
        (addSecretToWallet true true ts amount sk mine sweep db log).log).ret =
      db.nextSecretId := by
  have hdb1 : (addSecretToWallet true true ts amount sk mine sweep db log).db =
      upsertSecret ts sk mine sweep db := by
    simp [addSecretToWallet]
  have hup := upsertSecret_fresh ts sk mine sweep db hfresh
  refine ⟨by simp [addSecretToWallet], by simp [addSecretToWallet],
    by simp [addSecretToWallet], by simp [addSecretToWallet], ?_, ?_, ?_⟩
  · simp [addSecretToWallet, hup]
  · rw [hdb1, hup]
    exact ⟨⟨db.nextSecretId, ts, sk, mine, sweep⟩,
      List.mem_append_right _ (List.mem_singleton.mpr rfl), rfl, rfl⟩
  · rw [hdb1, hup]
    have hany : ((db.secrets ++ [(⟨db.nextSecretId, ts, sk, mine, sweep⟩ : SecretRow)]).any
        (fun r => r.secret == sk)) = true := by
      simp [List.any_append]
    have hup2 := upsertSecret_existing ts2 sk mine2 sweep2
      { db with
        secrets := db.secrets ++ [⟨db.nextSecretId, ts, sk, mine, sweep⟩],
        nextSecretId := db.nextSecretId + 1,
        lastInsertRowid := db.nextSecretId } hany
    simp [addSecretToWallet, hup2]

/-- C5 amended-theorem witness: a concrete fresh wallet where a
successful call returns row id 1 and the repeated call returns 1 again. -/
theorem C5_addSecret_amended_witness :
    (addSecretToWallet true true 0 1 "aa" true true emptyDB []).ret = 1 ∧
    (addSecretToWallet true true 5 2 "aa" false false
        (addSecretToWallet true true 0 1 "aa" true true emptyDB []).db
        (addSecretToWallet true true 0 1 "aa" true true emptyDB []).log).ret = 1 := by
  have h := C5_addSecret_amended 0 5 1 2 "aa" true true false false emptyDB [] (by decide)
  exact ⟨h.2.2.2.2.1, h.2.2.2.2.2.2⟩

theorem insertHdkey_secrets (i : Int) (d : Nat) (s : Int) (db : WalletDB) :
    (insertHdkey i d s db).secrets = db.secrets := by
  unfold insertHdkey
  split <;> rfl

theorem bumpMaxdepth_secrets (i : Int) (db : WalletDB) :
    (bumpMaxdepth i db).secrets = db.secrets := rfl

/-- C6: inserting an already-present secret (via `AddSecretToWallet`,
or via the identical transaction inside `ReserveSecret`) merges flags
as `mine_new = mine_old AND mine_incoming` and
`sweep_new = sweep_old OR sweep_incoming`, so across any sequence of
merges `mine` is monotonically non-increasing and `sweep`
monotonically non-decreasing. -/
theorem C6_merge_monotone :
    (∀ (logOk : Bool) (ts amount : Int) (sk : String) (mine sweep : Bool)
        (db : WalletDB) (log : List String) (r : SecretRow),
      r ∈ db.secrets → (r.secret == sk) = true →
      ∃ r' ∈ (addSecretToWallet logOk true ts amount sk mine sweep db log).db.secrets,
        r'.id = r.id ∧ r'.mine = (r.mine && mine) ∧ r'.sweep = (r.sweep || sweep)) ∧
    (∀ (hdroot : List Nat) (hdroot_id ts : Int) (mine sweep : Bool) (db : WalletDB)
        (r : SecretRow) (ws : WalletSecret) (db' : WalletDB),
      r ∈ db.secrets → reserveSecret hdroot hdroot_id ts mine sweep db = some (ws, db') →
      (r.secret == ws.secret) = true →
      ∃ r' ∈ db'.secrets,
        r'.id = r.id ∧ r'.mine = (r.mine && mine) ∧ r'.sweep = (r.sweep || sweep)) ∧
    (∀ (ops : List (Int × String × Bool × Bool)) (db : WalletDB) (r : SecretRow),
      r ∈ db.secrets →
      ∃ r' ∈ (applyUpserts db ops).secrets,
        r'.id = r.id ∧ r'.secret = r.secret ∧
        (r'.mine = true → r.mine = true) ∧ (r.sweep = true → r'.sweep = true)) := by
  refine ⟨?_, ?_, applyUpserts_mono⟩
  · intro logOk ts amount sk mine sweep db log r hr hcol
    have hdb : (addSecretToWallet logOk true ts amount sk mine sweep db log).db =
        upsertSecret ts sk mine sweep db := by
      cases logOk <;> simp [addSecretToWallet]
    rw [hdb]
    obtain ⟨r', hm, hid, _, _, hc, _⟩ := upsertSecret_row_step ts sk mine sweep db r hr
    exact ⟨r', hm, hid, (hc hcol).1, (hc hcol).2⟩
  · intro hdroot hdroot_id ts mine sweep db r ws db' hr hres hcol
    cases hchain : findChain db hdroot_id 0 mine sweep with
    | none => simp [reserveSecret, hchain] at hres
    | some chain =>
      simp only [reserveSecret, hchain, Option.some.injEq, Prod.mk.injEq] at hres
      obtain ⟨hws, hdb'⟩ := hres
      have hsk : ws.secret = reserveDerive hdroot mine sweep chain.maxdepth := by
        rw [← hws]
      obtain ⟨r', hm, hid, _, _, hc, _⟩ := upsertSecret_row_step ts
        (reserveDerive hdroot mine sweep chain.maxdepth) mine sweep db r hr
      have hcol' : (r.secret == reserveDerive hdroot mine sweep chain.maxdepth) = true := by
        rw [← hsk]; exact hcol
      have hm2 : r' ∈ db'.secrets := by
        rw [← hdb', bumpMaxdepth_secrets, insertHdkey_secrets]
        exact hm
      exact ⟨r', hm2, hid, (hc hcol').1, (hc hcol').2⟩

/-- C6 witness: one concrete merge on a wallet holding the secret with
flags `(mine, sweep) = (T, F)`, merged with incoming `(F, T)`. -/
theorem C6_merge_monotone_witness :
    ∃ r' ∈ (addSecretToWallet true true 7 1 "ab" false true
        { emptyDB with secrets := [⟨1, 0, "ab", true, false⟩], nextSecretId := 2 }
        []).db.secrets,
      r'.id = 1 ∧ r'.mine = (true && false) ∧ r'.sweep = (false || true) := by
  obtain ⟨r', hm, hid, hmine, hsweep⟩ := C6_merge_monotone.1 true 7 1 "ab" false true
    { emptyDB with secrets := [⟨1, 0, "ab", true, false⟩], nextSecretId := 2 } []
    ⟨1, 0, "ab", true, false⟩ (by decide) (by decide)
  exact ⟨r', hm, hid, hmine, hsweep⟩

theorem upsertSecret_hdchains (ts : Int) (sk : String) (mine sweep : Bool) (db : WalletDB) :
    (upsertSecret ts sk mine sweep db).hdchains = db.hdchains := by
  unfold upsertSecret
  split <;> rfl

theorem upsertSecret_hdkeys (ts : Int) (sk : String) (mine sweep : Bool) (db : WalletDB) :
    (upsertSecret ts sk mine sweep db).hdkeys = db.hdkeys := by
  unfold upsertSecret
  split <;> rfl

theorem insertHdkey_hdchains (i : Int) (d : Nat) (s : Int) (db : WalletDB) :
    (insertHdkey i d s db).hdchains = db.hdchains := by
  unfold insertHdkey
  split <;> rfl

theorem bumpMaxdepth_hdkeys (i : Int) (db : WalletDB) :
    (bumpMaxdepth i db).hdkeys = db.hdkeys := rfl

/-- `upsertSecret` always leaves a row carrying the upserted secret. -/
theorem upsertSecret_has (ts : Int) (sk : String) (mine sweep : Bool) (db : WalletDB) :
    ∃ r ∈ (upsertSecret ts sk mine sweep db).secrets, r.secret = sk := by
  by_cases hany : db.secrets.any (fun r => r.secret == sk) = true
  · obtain ⟨r0, hr0, hcol⟩ := List.any_eq_true.mp hany
    rw [upsertSecret_existing ts sk mine sweep db hany]
    refine ⟨_, List.mem_map_of_mem _ hr0, ?_⟩
    simp only [hcol, if_true]
    exact eq_of_beq hcol
  · have hf : db.secrets.any (fun r => r.secret == sk) = false := by simpa using hany
    rw [upsertSecret_fresh ts sk mine sweep db hf]
    exact ⟨⟨db.nextSecretId, ts, sk, mine, sweep⟩,
      List.mem_append_right _ (List.mem_singleton.mpr rfl), rfl⟩

/-- C9: `ReserveSecret` always returns a `WalletSecret` whose `id`
field is `-1`: the local `secret_id` variable is initialised to `-1`
and never assigned from the inserted row before being copied into the
returned value. -/
theorem C9_reserveSecret_id (hdroot : List Nat) (hdroot_id ts : Int) (mine sweep : Bool)
    (db : WalletDB) (ws : WalletSecret) (db' : WalletDB)
    (h : reserveSecret hdroot hdroot_id ts mine sweep db = some (ws, db')) :
    ws.id = -1 := by
  cases hchain : findChain db hdroot_id 0 mine sweep with
  | none => simp [reserveSecret, hchain] at h
  | some chain =>
    simp only [reserveSecret, hchain, Option.some.injEq, Prod.mk.injEq] at h
    rw [← h.1]

/-- C9 witness: the first scenario call returns `id = -1`. -/
theorem C9_reserveSecret_id_witness :
    ∃ ws db', reserveSecret zero32 1 10 false true scenarioDB = some (ws, db') ∧
      ws.id = -1 := by
  cases hres : reserveSecret zero32 1 10 false true scenarioDB with
  | none => exact absurd hres (by decide)
  | some p =>
    obtain ⟨ws1, db1⟩ := p
    exact ⟨ws1, db1, rfl,
      C9_reserveSecret_id zero32 1 10 false true scenarioDB ws1 db1 hres⟩

/-- C7: each `ReserveSecret` call reads the chain's current
`maxdepth`, derives at exactly that depth, inserts the secret and an
`hdkey` row linking it at that depth in one transaction, and
increments `maxdepth` by exactly one while never decrementing any
chain's `maxdepth`; concretely, two successive calls on the fresh
`(mine=F, sweep=T)` chain return distinct secrets that sit in `hdkey`
rows at depths 0 and 1 and leave that chain's `maxdepth` at 2. -/
theorem C7_reserveSecret_depths (hdroot : List Nat) (hdroot_id ts : Int) (mine sweep : Bool)
    (db : WalletDB) (chain : HDChainRow)
    (hchain : findChain db hdroot_id 0 mine sweep = some chain)
    (hnokey : db.hdkeys.any (fun k =>
        (k.hdchain_id == chain.id && k.depth == chain.maxdepth) ||
        k.secret_id == findSecretId
          (upsertSecret ts (reserveDerive hdroot mine sweep chain.maxdepth) mine sweep db)
          (reserveDerive hdroot mine sweep chain.maxdepth)) = false) :
    (∃ ws db', reserveSecret hdroot hdroot_id ts mine sweep db = some (ws, db') ∧
      ws.secret = reserveDerive hdroot mine sweep chain.maxdepth ∧
      (∃ r ∈ db'.secrets, r.secret = ws.secret) ∧
      (∃ k ∈ db'.hdkeys, k.hdchain_id = chain.id ∧ k.depth = chain.maxdepth ∧
        k.secret_id = findSecretId
          (upsertSecret ts (reserveDerive hdroot mine sweep chain.maxdepth) mine sweep db)
          (reserveDerive hdroot mine sweep chain.maxdepth)) ∧
      (∀ c ∈ db.hdchains, ∃ c' ∈ db'.hdchains, c'.id = c.id ∧
        c'.maxdepth = (if c.id == chain.id then c.maxdepth + 1 else c.maxdepth) ∧
        c.maxdepth ≤ c'.maxdepth)) ∧
    scenarioRun1.isSome = true ∧
    scenarioRun2.isSome = true ∧
    scenarioSecret1 ≠ scenarioSecret2 ∧
    (findChain scenarioFinalDB 1 0 false true).map (fun c => c.maxdepth) = some 2 ∧
    (∃ k ∈ scenarioFinalDB.hdkeys, k.hdchain_id = 2 ∧ k.depth = 0 ∧
      ∃ r ∈ scenarioFinalDB.secrets, r.id = k.secret_id ∧ r.secret = scenarioSecret1) ∧
    (∃ k ∈ scenarioFinalDB.hdkeys, k.hdchain_id = 2 ∧ k.depth = 1 ∧
      ∃ r ∈ scenarioFinalDB.secrets, r.id = k.secret_id ∧ r.secret = scenarioSecret2) := by
  refine ⟨?_, by decide, by decide, by decide, by decide, by decide, by decide⟩
  set sk := reserveDerive hdroot mine sweep chain.maxdepth with hsk
  set db1 := upsertSecret ts sk mine sweep db with hdb1
  set db2 := insertHdkey chain.id chain.maxdepth (findSecretId db1 sk) db1 with hdb2
  set db3 := bumpMaxdepth chain.id db2 with hdb3
  refine ⟨⟨-1, ts, sk, mine, sweep⟩, db3, ?_, rfl, ?_, ?_, ?_⟩
  · simp only [reserveSecret, hchain]
  · obtain ⟨r, hr, hrs⟩ := upsertSecret_has ts sk mine sweep db
    refine ⟨r, ?_, hrs⟩
    rw [hdb3, bumpMaxdepth_secrets, hdb2, insertHdkey_secrets]
    exact hr
  · have hnokey1 : db1.hdkeys.any (fun k =>
        (k.hdchain_id == chain.id && k.depth == chain.maxdepth) ||
        k.secret_id == findSecretId db1 sk) = false := by
      rw [hdb1, upsertSecret_hdkeys]
      exact hnokey
    refine ⟨⟨db1.nextHdkeyId, chain.id, chain.maxdepth, findSecretId db1 sk⟩, ?_, rfl, rfl, rfl⟩
    rw [hdb3, bumpMaxdepth_hdkeys, hdb2]
    unfold insertHdkey
    simp only [hnokey1, Bool.false_eq_true, if_false]
    exact List.mem_append_right _ (List.mem_singleton.mpr rfl)
  · intro c hc
    have hchains : db3.hdchains = db.hdchains.map (fun c =>
        if c.id == chain.id then { c with maxdepth := c.maxdepth + 1 } else c) := by
      rw [hdb3]
      unfold bumpMaxdepth
      rw [hdb2, insertHdkey_hdchains, hdb1, upsertSecret_hdchains]
    rw [hchains]
    refine ⟨_, List.mem_map_of_mem _ hc, ?_⟩
    by_cases hid : (c.id == chain.id) = true
    · simp [hid]
    · simp [hid]

/-- C7 witness: the general part applied to the fresh `(F,T)` chain of
the bootstrapped scenario wallet. -/
theorem C7_reserveSecret_depths_witness :
    ∃ ws db', reserveSecret zero32 1 10 false true scenarioDB = some (ws, db') ∧
      ws.secret = reserveDerive zero32 false true 0 ∧
      (∃ r ∈ db'.secrets, r.secret = ws.secret) ∧
      (∃ k ∈ db'.hdkeys, k.hdchain_id = 2 ∧ k.depth = 0 ∧
        k.secret_id = findSecretId
          (upsertSecret 10 (reserveDerive zero32 false true 0) false true scenarioDB)
          (reserveDerive zero32 false true 0)) ∧
      (∀ c ∈ scenarioDB.hdchains, ∃ c' ∈ db'.hdchains, c'.id = c.id ∧
        c'.maxdepth = (if c.id == 2 then c.maxdepth + 1 else c.maxdepth) ∧
        c.maxdepth ≤ c'.maxdepth) := by
  exact (C7_reserveSecret_depths zero32 1 10 false true scenarioDB
    ⟨2, 1, 0, false, true, 0, 0⟩ (by decide) (by decide)).1

/-- C8: on a wallet whose `hdroot` table is empty, the bootstrap
branch logs one line `<timestamp> hdroot <hex> version=1` (64 hex
characters for the 32 random bytes) before the database transaction,
then in a single transaction inserts exactly one `hdroot` row and
exactly four `hdchain` rows covering `(mine, sweep)` over the Boolean
square at `chaincode 0` with `mindepth = maxdepth = 0`. -/
theorem C8_hdroot_bootstrap (ts : Int) (randBytes : List Nat) (db : WalletDB)
    (log : List String) (hempty : db.hdroots = []) (hlen : randBytes.length = 32) :
    (getOrCreateHDRootCreate ts randBytes db log).2.1 =
      log ++ [toString ts ++ " hdroot " ++ bytesToHexString randBytes ++ " version=1"] ∧
    (bytesToHexString randBytes).length = 64 ∧
    (getOrCreateHDRootCreate ts randBytes db log).2.2 =
      [WalletEvent.logAppend (hdrootLogLine ts randBytes), WalletEvent.dbCommit] ∧
    (getOrCreateHDRootCreate ts randBytes db log).1.hdroots =
      [⟨db.nextHdrootId, ts, 1, randBytes⟩] ∧
    (getOrCreateHDRootCreate ts randBytes db log).1.hdchains =
      db.hdchains ++ initialChains db.nextHdrootId db.nextHdchainId ∧
    (initialChains db.nextHdrootId db.nextHdchainId).map (fun c => (c.mine, c.sweep)) =
      [(false, false), (false, true), (true, false), (true, true)] ∧
    ∀ c ∈ initialChains db.nextHdrootId db.nextHdchainId,
      c.hdroot_id = db.nextHdrootId ∧ c.chaincode = 0 ∧ c.mindepth = 0 ∧ c.maxdepth = 0 := by
  refine ⟨rfl, ?_, rfl, ?_, rfl, rfl, ?_⟩
  · show (hexChars randBytes).length = 64
    rw [hexChars_length, hlen]
  · show db.hdroots ++ [(⟨db.nextHdrootId, ts, 1, randBytes⟩ : HDRootRow)] = _
    rw [hempty]
    rfl
  · intro c hc
    simp only [initialChains, List.mem_cons, List.not_mem_nil, or_false] at hc
    rcases hc with h | h | h | h <;> subst h <;> exact ⟨rfl, rfl, rfl, rfl⟩

/-- C8 witness: bootstrap of a fully empty wallet with the all-zero
random vector at timestamp 0. -/
theorem C8_hdroot_bootstrap_witness :
    (getOrCreateHDRootCreate 0 zero32 emptyDB []).2.1 =
      [toString (0 : Int) ++ " hdroot " ++ bytesToHexString zero32 ++ " version=1"] ∧
    (getOrCreateHDRootCreate 0 zero32 emptyDB []).1.hdroots = [⟨1, 0, 1, zero32⟩] := by
  have h := C8_hdroot_bootstrap 0 zero32 emptyDB [] rfl (by decide)
  exact ⟨h.1, h.2.2.2.1⟩

/-- C3: `ReplaceWebcash` mutates the database only after an HTTP 200
response: a transport error (`resp = none`) or a non-200 status yields
an empty result with no database change and untouched input objects,
and conversely any observable mutation implies a 200 response was
received. -/
theorem C3_replace_requires_200 (updateOk : Int → Bool) (insertOk : Nat → Bool)
    (ts : Int) (inputs : List WalletOutput) (outputs : List (WalletSecret × Int))
    (db : WalletDB) :
    ((replaceWebcash none updateOk insertOk ts inputs outputs db).ret = [] ∧
     (replaceWebcash none updateOk insertOk ts inputs outputs db).db = db ∧
     (replaceWebcash none updateOk insertOk ts inputs outputs db).inputs = inputs) ∧
    (∀ status body, status ≠ 200 →
      (replaceWebcash (some (status, body)) updateOk insertOk ts inputs outputs db).ret = [] ∧
      (replaceWebcash (some (status, body)) updateOk insertOk ts inputs outputs db).db = db ∧
      (replaceWebcash (some (status, body)) updateOk insertOk ts inputs outputs db).inputs
        = inputs) ∧
    (∀ resp,
      ((replaceWebcash resp updateOk insertOk ts inputs outputs db).db ≠ db ∨
       (replaceWebcash resp updateOk insertOk ts inputs outputs db).inputs ≠ inputs) →
      ∃ body, resp = some (200, body)) := by
  have hnone : (replaceWebcash none updateOk insertOk ts inputs outputs db).ret = [] ∧
      (replaceWebcash none updateOk insertOk ts inputs outputs db).db = db ∧
      (replaceWebcash none updateOk insertOk ts inputs outputs db).inputs = inputs := by
    unfold replaceWebcash
    repeat' split
    all_goals first
      | exact ⟨rfl, rfl, rfl⟩
      | simp_all
  have hbad : ∀ status body, status ≠ 200 →
      (replaceWebcash (some (status, body)) updateOk insertOk ts inputs outputs db).ret = [] ∧
      (replaceWebcash (some (status, body)) updateOk insertOk ts inputs outputs db).db = db ∧
      (replaceWebcash (some (status, body)) updateOk insertOk ts inputs outputs db).inputs
        = inputs := by
    intro status body hs
    unfold replaceWebcash
    repeat' split
    all_goals first
      | exact ⟨rfl, rfl, rfl⟩
      | simp_all
  refine ⟨hnone, hbad, ?_⟩
  intro resp hne
  match resp with
  | none =>
    rcases hne with h | h
    · exact absurd hnone.2.1 h
    · exact absurd hnone.2.2 h
  | some (status, body) =>
    by_cases hs : status = 200
    · subst hs
      exact ⟨body, rfl⟩
    · rcases hne with h | h
      · exact absurd (hbad status body hs).2.1 h
      · exact absurd (hbad status body hs).2.2 h

/-- C3 witness: a transport error leaves the sample wallet unchanged
and a 500 response returns the empty list. -/
theorem C3_replace_requires_200_witness :
    (replaceWebcash none (fun _ => true) (fun _ => true) 0 sampleInputs sampleOutputs
        sampleDB).db = sampleDB ∧
    (replaceWebcash (some (500, "err")) (fun _ => true) (fun _ => true) 0 sampleInputs
        sampleOutputs sampleDB).ret = [] := by
  have h := C3_replace_requires_200 (fun _ => true) (fun _ => true) 0 sampleInputs
    sampleOutputs sampleDB
  exact ⟨h.1.2.1, (h.2.1 500 "err" (by decide)).1⟩

/-- C10: in the commit phase of `ReplaceWebcash` each in-memory input
object has its `spent` field set to `true` before the corresponding
database `UPDATE` is attempted, so every caller-visible input reports
`spent = true` regardless of the update oracle (in particular even
when every database update fails). -/
theorem C10_inputs_spent_in_memory (updateOk : Int → Bool) (insertOk : Nat → Bool)
    (ts : Int) (inputs : List WalletOutput) (outputs : List (WalletSecret × Int))
    (db : WalletDB) (body : String) (tIn : Int) (d : Bool)
    (h1 : inputs.isEmpty = false) (h2 : checkInputs inputs = some (tIn, d))
    (h3 : outputs.isEmpty = false) (h4 : checkOutputs outputs = some tIn) :
    (replaceWebcash (some (200, body)) updateOk insertOk ts inputs outputs db).inputs =
      inputs.map (fun w => { w with spent := true }) ∧
    ∀ w ∈ (replaceWebcash (some (200, body)) updateOk insertOk ts inputs outputs db).inputs,
      w.spent = true := by
  have hred : (replaceWebcash (some (200, body)) updateOk insertOk ts inputs outputs db).inputs =
      inputs.map (fun w => { w with spent := true }) := by
    unfold replaceWebcash
    rw [h2, h4]
    simp [h1, h3]
  refine ⟨hred, ?_⟩
  rw [hred]
  intro w hw
  obtain ⟨w0, _, hw0⟩ := List.mem_map.mp hw
  rw [← hw0]

/-- C10 witness: with every database update failing, the sample input
still comes back with `spent = true`. -/
theorem C10_inputs_spent_in_memory_witness :
    (replaceWebcash (some (200, "")) (fun _ => false) (fun _ => true) 0 sampleInputs
        sampleOutputs sampleDB).inputs =
      sampleInputs.map (fun w => { w with spent := true }) := by
  exact (C10_inputs_spent_in_memory (fun _ => false) (fun _ => true) 0 sampleInputs
    sampleOutputs sampleDB "" 1 false (by decide) (by decide) (by decide) (by decide)).1

/-- C2 (code bug): an input with amount below 1 only prints the
"Invalid amount for replacement intput" diagnostic — the source lacks
the `return {}` its sibling checks have — so with balanced sums the
call still sends the HTTP request, returns a non-empty result, and
mutates the database, contradicting the claimed precondition
behaviour. -/
theorem C2_input_amount_check_bug :
    checkInputs badInputs = some (1, true) ∧
    (replaceWebcash (some (200, "")) (fun _ => true) (fun _ => true) 0 badInputs
        sampleOutputs sampleDB).httpSent = true ∧
    (replaceWebcash (some (200, "")) (fun _ => true) (fun _ => true) 0 badInputs
        sampleOutputs sampleDB).ret ≠ [] ∧
    (replaceWebcash (some (200, "")) (fun _ => true) (fun _ => true) 0 badInputs
        sampleOutputs sampleDB).db ≠ sampleDB := by
  decide

/-- Closed form of the input half of the commit phase: each output row
whose id matches an input whose update statement succeeds is marked
spent; all other rows are untouched. -/
theorem commitInputs_outputs (uo : Int → Bool) (ins : List WalletOutput) (db : WalletDB) :
    (commitInputs uo db ins).outputs = db.outputs.map (fun r =>
      if ins.any (fun w => uo w.id && r.id == w.id) then { r with spent := true } else r) := by
  induction ins generalizing db with
  | nil =>
    show db.outputs = _
    simp
  | cons w ws ih =>
    show (commitInputs uo
        (if uo w.id then { db with outputs := markSpent db.outputs w.id } else db) ws).outputs = _
    by_cases h : uo w.id = true
    · rw [if_pos h, ih]
      show (markSpent db.outputs w.id).map _ = _
      unfold markSpent
      rw [List.map_map]
      apply List.map_congr_left
      intro r _
      by_cases hid : (r.id == w.id) = true
      · simp [Function.comp, hid, h]
      · simp [Function.comp, hid, h]
    · rw [if_neg h, ih]
      apply List.map_congr_left
      intro r _
      have h' : uo w.id = false := by simpa using h
      simp [h']

theorem commitInputs_nextOutputId (uo : Int → Bool) (ins : List WalletOutput) (db : WalletDB) :
    (commitInputs uo db ins).nextOutputId = db.nextOutputId := by
  induction ins generalizing db with
  | nil => rfl
  | cons w ws ih =>
    show (commitInputs uo
        (if uo w.id then { db with outputs := markSpent db.outputs w.id } else db)
        ws).nextOutputId = db.nextOutputId
    rw [ih]
    split <;> rfl

/-- Closed form of the output half of the commit phase: the returned
pairs are `retPairs` and the rows appended to the `output` table are
`insertedRows`, both indexed from the database's next rowid. -/
theorem commitOutputs_eq (io : Nat → Bool) (ts : Int) (outs : List (WalletSecret × Int)) :
    ∀ (k : Nat) (db : WalletDB), 0 < db.nextOutputId →
      (commitOutputs io ts k db outs).1 = retPairs io k db.nextOutputId outs ∧
      (commitOutputs io ts k db outs).2.outputs =
        db.outputs ++ insertedRows io ts k db.nextOutputId outs := by
  induction outs with
  | nil =>
    intro k db _
    exact ⟨rfl, (List.append_nil _).symm⟩
  | cons q rest ih =>
    intro k db hpos
    obtain ⟨s, a⟩ := q
    by_cases h : io k = true
    · have hne : (db.nextOutputId == 0) = false := by
        rw [beq_eq_false_iff_ne]
        omega
      obtain ⟨ih1, ih2⟩ := ih (k + 1)
        { db with
          outputs := db.outputs ++ [⟨db.nextOutputId, ts, publicHash s.secret,
            if s.id == 0 then none else some s.id, a, false⟩],
          nextOutputId := db.nextOutputId + 1,
          lastInsertRowid := db.nextOutputId }
        (by show (0:Int) < db.nextOutputId + 1; omega)
      constructor
      · simp only [commitOutputs, addOutputToWallet, h, if_true, hne, Bool.false_eq_true,
          if_false] at ih1 ⊢
        rw [ih1]
        simp [retPairs, h]
      · simp only [commitOutputs, addOutputToWallet, h, if_true, hne, Bool.false_eq_true,
          if_false] at ih2 ⊢
        rw [ih2]
        simp [insertedRows, h]
    · have h' : io k = false := by simpa using h
      obtain ⟨ih1, ih2⟩ := ih (k + 1) db hpos
      constructor
      · simp only [commitOutputs, addOutputToWallet, h', Bool.false_eq_true, if_false,
          beq_self_eq_true, if_true]
        rw [ih1]
        simp [retPairs, h']
      · simp only [commitOutputs, addOutputToWallet, h', Bool.false_eq_true, if_false,
          beq_self_eq_true, if_true]
        rw [ih2]
        simp [insertedRows, h']

/-- Every returned pair corresponds to an inserted row with that row
id, bound to the reserved secret's id and hash. -/
theorem retPairs_mem_insertedRows (io : Nat → Bool) (ts : Int) :
    ∀ (outs : List (WalletSecret × Int)) (k : Nat) (nid : Int),
      ∀ p ∈ retPairs io k nid outs,
        ∃ r ∈ insertedRows io ts k nid outs, r.id = p.2 ∧
          r.secret_id = (if p.1.id == 0 then none else some p.1.id) ∧
          r.hash = publicHash p.1.secret := by
  intro outs
  induction outs with
  | nil =>
    intro k nid p hp
    simp [retPairs] at hp
  | cons q rest ih =>
    intro k nid p hp
    obtain ⟨s, a⟩ := q
    by_cases h : io k = true
    · simp only [retPairs, h, if_true] at hp
      rcases List.mem_cons.mp hp with hp1 | hp2
      · subst hp1
        refine ⟨⟨nid, ts, publicHash s.secret, if s.id == 0 then none else some s.id, a, false⟩,
          ?_, rfl, rfl, rfl⟩
        simp [insertedRows, h]
      · obtain ⟨r, hr, hprops⟩ := ih (k + 1) (nid + 1) p hp2
        exact ⟨r, by simp [insertedRows, h, hr], hprops⟩
    · have h' : io k = false := by simpa using h
      simp only [retPairs, h', Bool.false_eq_true, if_false] at hp
      obtain ⟨r, hr, hprops⟩ := ih (k + 1) nid p hp
      exact ⟨r, by simp [insertedRows, h', hr], hprops⟩

theorem retPairs_length (io : Nat → Bool) (h : ∀ k, io k = true) :
    ∀ (outs : List (WalletSecret × Int)) (k : Nat) (nid : Int),
      (retPairs io k nid outs).length = outs.length := by
  intro outs
  induction outs with
  | nil => intro k nid; rfl
  | cons q rest ih =>
    intro k nid
    obtain ⟨s, a⟩ := q
    simp [retPairs, h k, ih]

/-- C4: after an HTTP 200 on a validated request, the commit phase
marks each input's output row spent by its row id (a failed update is
skipped and processing continues), inserts one output row per
requested output bound to the reserved secret's id, skipping failed
inserts, and returns exactly the successfully inserted reserved
secrets paired with their new row ids. -/
theorem C4_replace_commit (updateOk : Int → Bool) (insertOk : Nat → Bool) (ts : Int)
    (inputs : List WalletOutput) (outputs : List (WalletSecret × Int)) (db : WalletDB)
    (body : String) (tIn : Int) (d : Bool)
    (h1 : inputs.isEmpty = false) (h2 : checkInputs inputs = some (tIn, d))
    (h3 : outputs.isEmpty = false) (h4 : checkOutputs outputs = some tIn)
    (hpos : 0 < db.nextOutputId) :
    (replaceWebcash (some (200, body)) updateOk insertOk ts inputs outputs db).db.outputs =
      db.outputs.map (fun r =>
        if inputs.any (fun w => updateOk w.id && r.id == w.id) then { r with spent := true }
        else r) ++ insertedRows insertOk ts 0 db.nextOutputId outputs ∧
    (replaceWebcash (some (200, body)) updateOk insertOk ts inputs outputs db).ret =
      retPairs insertOk 0 db.nextOutputId outputs ∧
    (∀ p ∈ (replaceWebcash (some (200, body)) updateOk insertOk ts inputs outputs db).ret,
      ∃ r ∈ (replaceWebcash (some (200, body)) updateOk insertOk ts inputs
          outputs db).db.outputs,
        r.id = p.2 ∧ r.secret_id = (if p.1.id == 0 then none else some p.1.id) ∧
        r.hash = publicHash p.1.secret) ∧
    ((∀ k, insertOk k = true) →
      (replaceWebcash (some (200, body)) updateOk insertOk ts inputs outputs db).ret.length =
        outputs.length) := by
  have hred : replaceWebcash (some (200, body)) updateOk insertOk ts inputs outputs db =
      ⟨(commitOutputs insertOk ts 0
          (commitInputs updateOk db (inputs.map (fun w => { w with spent := true })))
          outputs).1,
        inputs.map (fun w => { w with spent := true }),
        (commitOutputs insertOk ts 0
          (commitInputs updateOk db (inputs.map (fun w => { w with spent := true })))
          outputs).2,
        true, d⟩ := by
    unfold replaceWebcash
    rw [h2, h4]
    simp [h1, h3]
  have hnext : (commitInputs updateOk db
      (inputs.map (fun w => { w with spent := true }))).nextOutputId = db.nextOutputId :=
    commitInputs_nextOutputId ..
  obtain ⟨hc1, hc2⟩ := commitOutputs_eq insertOk ts outputs 0
    (commitInputs updateOk db (inputs.map (fun w => { w with spent := true })))
    (by rw [hnext]; exact hpos)
  rw [hnext] at hc1 hc2
  have hmark : (commitInputs updateOk db
      (inputs.map (fun w => { w with spent := true }))).outputs =
      db.outputs.map (fun r =>
        if inputs.any (fun w => updateOk w.id && r.id == w.id) then { r with spent := true }
        else r) := by
    rw [commitInputs_outputs]
    apply List.map_congr_left
    intro r _
    rw [List.any_map]
    rfl
  rw [hmark] at hc2
  refine ⟨?_, ?_, ?_, ?_⟩
  · rw [hred]
    exact hc2
  · rw [hred]
    exact hc1
  · intro p hp
    rw [hred] at hp
    have hp' : p ∈ retPairs insertOk 0 db.nextOutputId outputs := by
      rw [← hc1]
      exact hp
    obtain ⟨r, hr, hprops⟩ := retPairs_mem_insertedRows insertOk ts outputs 0
      db.nextOutputId p hp'
    refine ⟨r, ?_, hprops⟩
    rw [hred]
    show r ∈ (commitOutputs insertOk ts 0 _ outputs).2.outputs
    rw [hc2]
    exact List.mem_append_right _ hr
  · intro hall
    rw [hred]
    show (commitOutputs insertOk ts 0 _ outputs).1.length = outputs.length
    rw [hc1]
    exact retPairs_length insertOk hall outputs 0 db.nextOutputId

/-- C4 witness: the sample replacement (one input, one output, all
statements succeeding) returns the single pair `(wsB, 2)`. -/
theorem C4_replace_commit_witness :
    (replaceWebcash (some (200, "")) (fun _ => true) (fun _ => true) 0 sampleInputs
        sampleOutputs sampleDB).ret = retPairs (fun _ => true) 0 2 sampleOutputs := by
  exact (C4_replace_commit (fun _ => true) (fun _ => true) 0 sampleInputs sampleOutputs
    sampleDB "" 1 false (by decide) (by decide) (by decide) (by decide) (by decide)).2.1

end Webminer
